import Mathlib

/-!
Verification of the metrics-and-scoring engine of the AutoCodex code-review
bot (`src/main.py`, class `AdvancedCodeReviewBot`).

The repository's engine is shallowly embedded here:
  * pure string processing (`str.splitlines`, the regex token scanners used by
    the TF-IDF vectorizer and the Java keyword fallback) is translated to
    executable Lean functions over `List Char`;
  * calls into external libraries (radon's `cc_visit` / `mi_visit`, pylint,
    PMD, `ast.parse`, `javalang.parse.parse`, the GitHub provider and the
    suggestion generator) are modelled as oracle inputs: each per-file input
    carries the outcome (`Except`) that the external call produced, and the
    repository functions are translated as functions of those outcomes;
  * Python's `try/except` control flow becomes explicit branching on the
    `Except` values, reproducing which assignments are skipped when an
    exception aborts a `try` block;
  * float arithmetic is idealized as exact arithmetic (`ℚ`, and `ℝ` for the
    TF-IDF cosine similarities, whose idf factors involve a logarithm).
-/

namespace AutoCodex

/-! ### Python string primitives -/

/-- The line-boundary characters recognized by CPython's `str.splitlines`. -/
def isLineBreak (c : Char) : Bool :=
  c = '\n' || c = '\r' || c = '\x0b' || c = '\x0c' ||
  c = '\x1c' || c = '\x1d' || c = '\x1e' || c = '\x85' ||
  c = ' ' || c = ' '

/-- Worker for `pySplitlines`: `acc` is the current line, reversed.
A `"\r\n"` sequence counts as a single boundary; a trailing boundary does
not produce a final empty line (CPython `str.splitlines` semantics). -/
def pySplitAux : List Char → List Char → List String
  | [], acc => if acc.isEmpty then [] else [⟨acc.reverse⟩]
  | '\r' :: '\n' :: rest, acc => (⟨acc.reverse⟩ : String) :: pySplitAux rest []
  | c :: rest, acc =>
    if isLineBreak c then (⟨acc.reverse⟩ : String) :: pySplitAux rest []
    else pySplitAux rest (c :: acc)

/-- `code.splitlines()` (CPython): split at line boundaries, no trailing
empty line when the string ends with a boundary. -/
def pySplitlines (s : String) : List String :=
  pySplitAux s.toList []

/-- A regex `\w` word character.  CPython's `re` with the default unicode
flag accepts all unicode word characters; the repository's inputs are source
code, for which the ASCII alphanumerics plus underscore are the relevant
set. -/
def isWordChar (c : Char) : Bool :=
  c.isAlphanum || c = '_'

/-- Worker for `wordRuns`: splits a character list into its maximal runs of
word characters (`acc` is the current run, reversed). -/
def wordRunsAux : List Char → List Char → List String
  | [], acc => if acc.isEmpty then [] else [⟨acc.reverse⟩]
  | c :: rest, acc =>
    if isWordChar c then wordRunsAux rest (c :: acc)
    else if acc.isEmpty then wordRunsAux rest []
    else (⟨acc.reverse⟩ : String) :: wordRunsAux rest []

/-- The maximal word-character runs of a string, in order. -/
def wordRuns (s : String) : List String :=
  wordRunsAux s.toList []

/-- `str.lower()` as used by the vectorizer's preprocessing step. -/
def pyLower (s : String) : String :=
  ⟨s.toList.map Char.toLower⟩

/-- The token pattern of `sklearn`'s `TfidfVectorizer` default configuration
(`(?u)\b\w\w+\b` after lowercasing): maximal word-character runs of length
at least two, on the lowercased line. -/
def tokenize (line : String) : List String :=
  (wordRuns (pyLower line)).filter (fun t => 2 ≤ t.length)

/-- `len(re.findall(r'\b(if|for|while|switch)\b', code))`: whole-word
occurrences of the four Java control-flow keywords (main.py line 124). -/
def javaKeywordComplexity (code : String) : ℕ :=
  ((wordRuns code).filter
    (fun t => t = "if" || t = "for" || t = "while" || t = "switch")).length

example : pySplitlines ("a\nb\n") = ["a", "b"] := by decide
example : pySplitlines ("") = [] := by decide
example : pySplitlines ("\n") = [""] := by decide
example : pySplitlines ("a\r\nb") = ["a", "b"] := by decide
example : tokenize ("x = 1") = [] := by decide
example : tokenize ("def f(:") = ["def"] := by decide
example : javaKeywordComplexity ("if (x) { for (;;) iffy(); }") = 2 := by decide

/-! ### The Python syntax tree

`_analyze_python` consumes the result of `ast.parse` (an external parser):
we embed the fragment of the CPython `ast` node language the analyzer
distinguishes, and quantify over parse results.  A parse failure is the
`Except.error` case, carrying the exception's message. -/

mutual
inductive PyExpr where
  | name (id : String)
  | const (lit : String)
  | call (func : PyExpr) (args : List PyExpr)
  | listComp (elt : PyExpr) (gens : List PyComprehension)
  | tupleE (elts : List PyExpr)

inductive PyComprehension where
  | comp (target : PyExpr) (iter : PyExpr) (ifs : List PyExpr)
end

/-- An `ast.arg` node: a formal parameter with an optional annotation
expression (field `annotation` in CPython, renamed here). -/
structure PyArg where
  pname : String
  annot : Option PyExpr

inductive PyStmt where
  | functionDef (fname : String) (args : List PyArg) (body : List PyStmt)
      (returns : Option PyExpr)
  | forStmt (target : PyExpr) (iter : PyExpr) (body : List PyStmt)
      (orelse : List PyStmt)
  | assign (targets : List PyExpr) (value : PyExpr)
  | exprStmt (value : PyExpr)
  | returnStmt (value : Option PyExpr)
  | passStmt

/-- `ast.parse` on a whole file always returns an `ast.Module`. -/
structure PyModule where
  body : List PyStmt

/-- The uniform node type yielded by `ast.walk`: modules, statements,
expressions, `ast.arguments`, `ast.arg` and `ast.comprehension` objects. -/
inductive PyNode where
  | mod (m : PyModule)
  | stmt (s : PyStmt)
  | expr (e : PyExpr)
  | argsNode (args : List PyArg)
  | argNode (a : PyArg)
  | compNode (c : PyComprehension)

/-! `ast.walk` yields the start node first and then every descendant.
CPython implements it breadth-first; `_analyze_python` applies independent
per-node checks, and the properties below depend only on which nodes are
visited and on the first visited node (the module itself), both of which a
depth-first preorder shares, so we traverse in preorder (child order as in
each node's `_fields`). -/

mutual
def walkExpr : PyExpr → List PyNode
  | .name i => [.expr (.name i)]
  | .const l => [.expr (.const l)]
  | .call f as => .expr (.call f as) :: (walkExpr f ++ walkExprs as)
  | .listComp e gs => .expr (.listComp e gs) :: (walkExpr e ++ walkComps gs)
  | .tupleE es => .expr (.tupleE es) :: walkExprs es

def walkExprs : List PyExpr → List PyNode
  | [] => []
  | e :: es => walkExpr e ++ walkExprs es

def walkComp : PyComprehension → List PyNode
  | .comp t i ifs => .compNode (.comp t i ifs) :: (walkExpr t ++ walkExpr i ++ walkExprs ifs)

def walkComps : List PyComprehension → List PyNode
  | [] => []
  | c :: cs => walkComp c ++ walkComps cs
end

def walkOptExpr : Option PyExpr → List PyNode
  | none => []
  | some e => walkExpr e

def walkArg (a : PyArg) : List PyNode :=
  .argNode a :: walkOptExpr a.annot

def walkArgs (args : List PyArg) : List PyNode :=
  .argsNode args :: args.flatMap walkArg

mutual
def walkStmt : PyStmt → List PyNode
  | .functionDef n a b r =>
      .stmt (.functionDef n a b r) :: (walkArgs a ++ walkStmts b ++ walkOptExpr r)
  | .forStmt t i b o =>
      .stmt (.forStmt t i b o) :: (walkExpr t ++ walkExpr i ++ walkStmts b ++ walkStmts o)
  | .assign ts v => .stmt (.assign ts v) :: (walkExprs ts ++ walkExpr v)
  | .exprStmt v => .stmt (.exprStmt v) :: walkExpr v
  | .returnStmt v => .stmt (.returnStmt v) :: walkOptExpr v
  | .passStmt => [.stmt .passStmt]

def walkStmts : List PyStmt → List PyNode
  | [] => []
  | s :: ss => walkStmt s ++ walkStmts ss
end

def walkModule (m : PyModule) : List PyNode :=
  .mod m :: walkStmts m.body

/-! ### The Python structural analyzer (`_analyze_python`, lines 168-196) -/

/-- `getattr(node.func, 'id', '')`: only `ast.Name` nodes carry an `id`. -/
def funcId : PyExpr → String
  | .name i => i
  | _ => ""

/-- `isinstance(a, ast.AnnAssign)` for `a` drawn from `node.args.args`:
the elements of `ast.arguments.args` are `ast.arg` objects and never
instances of the statement class `ast.AnnAssign`, so this test is constantly
false (main.py line 178 tests exactly this). -/
def argIsAnnAssign (_a : PyArg) : Bool := false

def isForNode : PyNode → Bool
  | .stmt (.forStmt _ _ _ _) => true
  | _ => false

def isListCompNode : PyNode → Bool
  | .expr (.listComp _ _) => true
  | _ => false

def missingHintsIssue (n : String) : String :=
  "Missing type hints in function " ++ n

def unsafeUseIssue (n : String) : String :=
  "Potentially unsafe use of " ++ n

def genExprIssue : String :=
  "Consider using generator expression for memory efficiency"

/-- The issues the loop body of `_analyze_python` appends for one visited
node.  `parent` is `next(ast.walk(tree))`, recomputed afresh for every
list comprehension: the first node of a fresh walk, i.e. the module. -/
def pyNodeIssues (parent : PyNode) (n : PyNode) : List String :=
  (match n with
   | .stmt (.functionDef nm args _ ret) =>
     if ret.isNone && !(args.any argIsAnnAssign) then [missingHintsIssue nm] else []
   | _ => []) ++
  (match n with
   | .expr (.call f _) =>
     if funcId f = "eval" || funcId f = "exec" then [unsafeUseIssue (funcId f)] else []
   | _ => []) ++
  (match n with
   | .expr (.listComp _ _) => if isForNode parent then [genExprIssue] else []
   | _ => [])

def pyErrorIssue (msg : String) : String :=
  "Python analysis error: " ++ msg

/-- `_analyze_python(code)`: parse, then scan every walked node; a parse
failure is caught and reported as the single issue string. -/
def _analyze_python : Except String PyModule → List String
  | .error msg => [pyErrorIssue msg]
  | .ok m => (walkModule m).flatMap (pyNodeIssues ((walkModule m).headD (.mod m)))

/-! ### The Java structural analyzer (`_analyze_java`, lines 198-225)

`javalang.parse.parse` and the tree iteration `for path, node in tree` are
external; we embed the parse outcome as the sequence of visited nodes,
distinguishing the three node shapes the analyzer inspects. -/

inductive JNode where
  | tryStmt (hasFinally : Bool) (hasResources : Bool)
  | fieldDecl (modifiers : List String) (declarators : List String)
  | classDecl (numFields : ℕ) (methodNames : List String)
  | otherNode

def tryIssue : String := "Consider adding finally block or try-with-resources"

def finalFieldIssue (d : String) : String :=
  "Consider making field " ++ d ++ " final"

def builderIssue : String := "Consider implementing Builder pattern"

def javaErrorIssue (msg : String) : String :=
  "Java analysis error: " ++ msg

/-- The `for path, node in tree` loop of `_analyze_java`.  Reading
`node.declarators[0]` on an empty declarator list raises `IndexError`,
which the surrounding handler converts to an appended issue string,
abandoning the rest of the loop (javalang's grammar in fact guarantees a
nonempty declarator list). -/
def javaNodeLoop : List JNode → List String → List String
  | [], issues => issues
  | n :: rest, issues =>
    match n with
    | .tryStmt fin res =>
      if !fin && !res then javaNodeLoop rest (issues ++ [tryIssue])
      else javaNodeLoop rest issues
    | .fieldDecl mods decls =>
      if !(mods.contains ("final")) then
        match decls with
        | [] => issues ++ [javaErrorIssue ("list index out of range")]
        | d :: _ => javaNodeLoop rest (issues ++ [finalFieldIssue d])
      else javaNodeLoop rest issues
    | .classDecl nf ms =>
      if 5 < nf && !(ms.contains ("builder")) then javaNodeLoop rest (issues ++ [builderIssue])
      else javaNodeLoop rest issues
    | .otherNode => javaNodeLoop rest issues

/-- `_analyze_java(code)`: parse, then scan the node sequence; a parse
failure is caught and reported as the single issue string. -/
def _analyze_java : Except String (List JNode) → List String
  | .error msg => [javaErrorIssue msg]
  | .ok ns => javaNodeLoop ns []

/-! ### The duplication metric (main.py lines 127-134)

`TfidfVectorizer()` with its defaults: tokens are `tokenize` above, term
frequencies are raw counts, the idf uses smoothing
(`idf t = ln((1+n)/(1+df t)) + 1`), and rows are l2-normalized (a row with
no tokens stays zero).  `cosine_similarity` of the normalized rows is their
Gram matrix, so the similarity of rows `i`,`j` is `dot i j / (‖i‖·‖j‖)`,
and `0` whenever either row is zero.  The float arithmetic of
numpy/sklearn is idealized as exact real arithmetic. -/

/-- All tokens of the file, line by line.  `fit_transform` raises
`ValueError` ("empty vocabulary") precisely when this list is empty. -/
def linesTokens (lines : List String) : List String :=
  lines.flatMap tokenize

/-- The vectorizer's vocabulary: the set of distinct tokens. -/
def vocabFinset (lines : List String) : Finset String :=
  (linesTokens lines).toFinset

/-- Document frequency of token `t`: the number of lines containing it. -/
def docFreq (lines : List String) (t : String) : ℕ :=
  (lines.filter (fun l => (tokenize l).contains t)).length

/-- Smoothed inverse document frequency (`smooth_idf=True`, the default):
`ln((1+n)/(1+df)) + 1`. -/
noncomputable def idf (lines : List String) (t : String) : ℝ :=
  Real.log ((1 + lines.length) / (1 + docFreq lines t)) + 1

/-- Un-normalized tf-idf entry of line `i` at token `t`. -/
noncomputable def tfidfWeight (lines : List String) (i : ℕ) (t : String) : ℝ :=
  ((tokenize (lines.getD i "")).count t : ℝ) * idf lines t

/-- Scalar product of the raw tf-idf rows `i` and `j`. -/
noncomputable def tfidfDot (lines : List String) (i j : ℕ) : ℝ :=
  ∑ t ∈ vocabFinset lines, tfidfWeight lines i t * tfidfWeight lines j t

/-- Entry `(i,j)` of `cosine_similarity(vectors)`: the cosine of the two
tf-idf rows, with zero rows mapped to similarity `0` (sklearn substitutes
norm 1 for zero rows). -/
noncomputable def cosineSim (lines : List String) (i j : ℕ) : ℝ :=
  if tfidfDot lines i i = 0 ∨ tfidfDot lines j j = 0 then 0
  else tfidfDot lines i j /
    (Real.sqrt (tfidfDot lines i i) * Real.sqrt (tfidfDot lines j j))

open Classical in
/-- `np.sum(similarity_matrix > 0.8)`: the number of entries of the `n × n`
similarity matrix (diagonal included) strictly above `0.8`. -/
noncomputable def simCount (lines : List String) : ℕ :=
  ((Finset.range lines.length ×ˢ Finset.range lines.length).filter
    (fun p => 0.8 < cosineSim lines p.1 p.2)).card

/-- The value held by `metrics_result['duplication']` after lines 127-134:
`(np.sum(similarity_matrix > 0.8) - len(lines)) / 2` when the file has at
least two lines and the vectorizer finds a vocabulary; the field keeps its
default `0` when the file has at most one line (the guard on line 129) or
when `fit_transform` raises `ValueError` on an empty vocabulary (caught by
the handler on line 136 after the field's default was set on line 89). -/
noncomputable def duplicationOf (code : String) : ℚ :=
  let lines := pySplitlines code
  if 1 < lines.length then
    if linesTokens lines = [] then 0
    else ((simCount lines : ℚ) - (lines.length : ℚ)) / 2
  else 0

/-! ### The metric collector (`calculate_metrics`, lines 83-139) -/

/-- The dictionary built on lines 84-90: `loc` is computed eagerly, every
other metric starts at its default.  The optional pylint score and PMD
violation count model the keys added only on lines 104 and 120. -/
structure Metrics where
  loc : ℕ
  complexity : ℚ
  maintainability : ℚ
  test_coverage : ℚ
  duplication : ℚ
  pylint_score : Option ℚ
  pmd_violations : Option ℕ

def initMetrics (code : String) : Metrics :=
  ⟨(pySplitlines code).length, 0, 0, 0, 0, none, none⟩

inductive Lang where
  | python
  | java
deriving DecidableEq

/-- Everything a single file's analysis consumes: its decoded text plus the
outcome of each external call (radon's `cc_visit` complexities and
`mi_visit` index, pylint's message count, PMD's availability and parsed
output, the two parsers, and the suggestion generator). -/
structure FileInput where
  code : String
  ccResult : Except String (List ℚ)
  miResult : Except String ℚ
  pylintMessages : Except String ℕ
  pmdFound : Bool
  pmdOutcome : Except String (Option ℕ)
  pyParse : Except String PyModule
  javaParse : Except String (List JNode)
  ai : Except String String

/-- `_run_pylint` (lines 57-81): `10` with no messages, otherwise
`max(0, 10 - 0.1·messages)`. -/
def _run_pylint (messages : ℕ) : ℚ :=
  if 0 < messages then max 0 (10 - (messages : ℚ) * (1 / 10)) else 10

/-- `max((cc.complexity for cc in cc_visit(code)), default=0)`. -/
def pyMaxCC : List ℚ → ℚ
  | [] => 0
  | x :: t => t.foldl max x

/-- `calculate_metrics` (lines 83-139).  All statements from line 92 on sit
in one `try` block: when an external call raises, every assignment after it
is skipped and the corresponding fields keep their defaults; the handler on
line 136 only logs.  The duplication computation (lines 127-134) runs after
the per-language phase and is folded into `duplicationOf`, whose value
coincides with the field (the field still holds its default `0` at line
127, and `duplicationOf` returns `0` exactly on the paths that leave it
unassigned). -/
noncomputable def calculate_metrics (fi : FileInput) (lang : Lang) : Metrics :=
  let m0 := initMetrics fi.code
  match lang with
  | .python =>
    match fi.ccResult with
    | .error _ => m0
    | .ok ccs =>
      let m1 := { m0 with complexity := pyMaxCC ccs }
      match fi.miResult with
      | .error _ => m1
      | .ok mi =>
        let m2 := { m1 with maintainability := mi }
        match fi.pylintMessages with
        | .error _ => m2
        | .ok k =>
          { m2 with pylint_score := some (_run_pylint k),
                    duplication := duplicationOf fi.code }
  | .java =>
    if fi.pmdFound then
      match fi.pmdOutcome with
      | .error _ => m0
      | .ok none => { m0 with duplication := duplicationOf fi.code }
      | .ok (some k) =>
        { m0 with pmd_violations := some k, duplication := duplicationOf fi.code }
    else
      { m0 with complexity := (javaKeywordComplexity fi.code : ℚ),
                maintainability := 50,
                duplication := duplicationOf fi.code }

/-! ### The rule catalog (`_load_rules`, lines 29-55) -/

structure RuleSet where
  max_line_length : ℕ
  max_function_length : ℕ
  max_complexity : ℚ
  min_test_coverage : ℕ
  naming_conventions : List (String × String)

def _load_rules : Lang → RuleSet
  | .python =>
    ⟨100, 50, 10, 80,
      [("class", "^[A-Z][a-zA-Z0-9]*$"), ("function", "^[a-z][a-z0-9_]*$"),
       ("variable", "^[a-z][a-z0-9_]*$"), ("constant", "^[A-Z][A-Z0-9_]*$")]⟩
  | .java =>
    ⟨120, 60, 15, 85,
      [("class", "^[A-Z][a-zA-Z0-9]*$"), ("method", "^[a-z][a-zA-Z0-9]*$"),
       ("variable", "^[a-z][a-z0-9]*$"), ("constant", "^[A-Z][A-Z0-9_]*$")]⟩

/-! ### Per-file analysis (`analyze_code_quality`, lines 141-166) -/

structure AnalysisResult where
  issues : List String
  metrics : Metrics
  total_issues : ℕ

def highComplexityIssue (c maxc : ℚ) : String :=
  "High cyclomatic complexity: " ++ toString c ++ " (max: " ++ toString maxc ++ ")"

def highDupIssue (d : ℚ) : String :=
  "High code duplication detected: " ++ toString d ++ "%"

noncomputable def analyze_code_quality (fi : FileInput) (lang : Lang) : AnalysisResult :=
  let m := calculate_metrics fi lang
  let issues :=
    (if (_load_rules lang).max_complexity < m.complexity then
      [highComplexityIssue m.complexity (_load_rules lang).max_complexity] else []) ++
    (if 10 < m.duplication then [highDupIssue m.duplication] else []) ++
    (match lang with
     | .python => _analyze_python fi.pyParse
     | .java => _analyze_java fi.javaParse)
  ⟨issues, m, issues.length⟩

/-- `get_ai_suggestions` (lines 227-245): the generator's text, or the
failure notice when the call raised. -/
def get_ai_suggestions (fi : FileInput) : String :=
  match fi.ai with
  | .ok t => t
  | .error e => "AI review failed: " ++ e

/-! ### The quality scorer (`_calculate_quality_score`, lines 310-329) -/

/-- The dictionary handed to the scorer.  `avg_maintainability` is read
with `.get(…, 50)` and may be absent; `total_issues` is read with plain
indexing, so a missing key raises `KeyError` (the record built by
`process_repository` does omit it). -/
structure QSRecord where
  avg_complexity : ℚ
  avg_maintainability : Option ℚ
  total_issues : Option ℚ
  total_loc : ℚ

/-- `_calculate_quality_score`: the weighted sum of lines 319-327, with the
bare `except` on line 328 turning any `KeyError` (missing `total_issues`)
or `ZeroDivisionError` (`total_loc == 0`) into a score of `0`. -/
def _calculate_quality_score (m : QSRecord) : ℚ :=
  match m.total_issues with
  | none => 0
  | some ti =>
    if m.total_loc = 0 then 0
    else
      let complexity_score := max 0 (100 - m.avg_complexity * 5)
      let maintainability_score := m.avg_maintainability.getD 50
      let issues_density := min 100 (ti / m.total_loc * 1000)
      0.3 * complexity_score + 0.3 * maintainability_score +
        0.4 * (100 - issues_density)

/-! ### The repository walker (`process_repository`, lines 247-308)

The GitHub provider is external: the initial `get_repo`/`get_contents("")`
pair is one `Except` (either may raise, hitting the outer handler), each
directory's `get_contents(path)` outcome is embedded in the tree, and each
file carries the outcome of fetching and utf-8-decoding its content
together with the file's oracle bundle.  `scan_date` (wall clock) is
omitted.  `file_results` is a Python dict keyed by path: insertion order
with in-place overwrite on duplicate keys. -/

inductive GhEntry where
  | dir (children : Except String (List GhEntry))
  | file (path : String) (content : Except String FileInput)

structure FileRecord where
  language : Lang
  issues : List String
  metrics : Metrics
  ai_suggestions : String

structure OverallMetrics where
  avg_complexity : ℚ
  avg_maintainability : ℚ
  total_loc : ℚ
  quality_score : ℚ

inductive RepoResult where
  | report (repository : String) (files_analyzed : ℕ) (total_issues : ℕ)
      (file_results : List (String × FileRecord)) (overall_metrics : OverallMetrics)
  | errorResult (repository : String) (err : String)
      (files_analyzed : ℕ) (total_issues : ℕ)

/-- Python-dict assignment `d[k] = v`: overwrite in place or append. -/
def dictInsert (k : String) (v : FileRecord) :
    List (String × FileRecord) → List (String × FileRecord)
  | [] => [(k, v)]
  | (k', v') :: t => if k' = k then (k, v) :: t else (k', v') :: dictInsert k v t

/-- `file_content.path.endswith(('.py', '.java'))`. -/
def isSourcePath (p : String) : Bool :=
  p.endsWith (".py") || p.endsWith (".java")

/-- `'python' if file_content.path.endswith('.py') else 'java'`. -/
def langOf (p : String) : Lang :=
  if p.endsWith (".py") then .python else .java

/-- The mutable fields of `results` that the loop updates. -/
structure WalkAcc where
  files_analyzed : ℕ
  total_issues : ℕ
  file_results : List (String × FileRecord)
  sum_complexity : ℚ
  total_loc : ℚ

/-- Lines 294-301: divide the accumulated complexity and invoke the scorer
only when at least one file was analyzed.  The record passed to the scorer
is `results['overall_metrics']`, which holds `avg_maintainability` (still
`0`) but no `total_issues` key. -/
def finalize (name : String) (acc : WalkAcc) : RepoResult :=
  if 0 < acc.files_analyzed then
    let avgC := acc.sum_complexity / (acc.files_analyzed : ℚ)
    .report name acc.files_analyzed acc.total_issues acc.file_results
      ⟨avgC, 0, acc.total_loc,
        _calculate_quality_score ⟨avgC, some 0, none, acc.total_loc⟩⟩
  else
    .report name acc.files_analyzed acc.total_issues acc.file_results
      ⟨acc.sum_complexity, 0, acc.total_loc, 0⟩

theorem ghSizeOf_append (l₁ l₂ : List GhEntry) :
    sizeOf (l₁ ++ l₂) + 1 = sizeOf l₁ + sizeOf l₂ := by
  induction l₁ with
  | nil => simp; omega
  | cons a t ih => simp only [List.cons_append, List.cons.sizeOf_spec]; omega

/-- The `while contents:` loop (lines 265-292): pop the front; a directory
pushes its children at the back (a failed `get_contents` raises to the
outer handler, line 302); a `.py`/`.java` file is fetched, decoded and
analyzed inside the per-file `try`, whose handler (line 291) skips the file
on failure; other files are skipped silently. -/
noncomputable def walkLoop : String → WalkAcc → List GhEntry → RepoResult
  | name, acc, [] => finalize name acc
  | name, acc, .dir (.ok children) :: rest => walkLoop name acc (rest ++ children)
  | name, _acc, .dir (.error msg) :: _rest => .errorResult name msg 0 0
  | name, acc, .file path content :: rest =>
    if isSourcePath path then
      match content with
      | .error _ => walkLoop name acc rest
      | .ok fi =>
        let lang := langOf path
        let analysis := analyze_code_quality fi lang
        let record : FileRecord :=
          ⟨lang, analysis.issues, analysis.metrics, get_ai_suggestions fi⟩
        walkLoop name
          ⟨acc.files_analyzed + 1, acc.total_issues + analysis.total_issues,
            dictInsert path record acc.file_results,
            acc.sum_complexity + analysis.metrics.complexity,
            acc.total_loc + (analysis.metrics.loc : ℚ)⟩ rest
    else walkLoop name acc rest
termination_by _ _ l => sizeOf l
decreasing_by
  all_goals simp only [List.cons.sizeOf_spec]
  · have h := ghSizeOf_append rest children
    simp only [GhEntry.dir.sizeOf_spec, Except.ok.sizeOf_spec] at *
    omega
  all_goals omega

/-- `process_repository` (lines 247-308): the outer `try` returns the
error-marker dictionary (line 303-308) when repository access or any tree
fetch fails. -/
noncomputable def process_repository (name : String)
    (initial : Except String (List GhEntry)) : RepoResult :=
  match initial with
  | .error msg => .errorResult name msg 0 0
  | .ok entries => walkLoop name ⟨0, 0, [], 0, 0⟩ entries

/-! ### Spec-side definitions (for refutations and refinement comparisons) -/

/-- Modelled from the spec's words (claim C4): "the number of
newline-separated lines of the text, counting a trailing empty line when
the text ends with a newline" — i.e. splitting at every `'\n'` and keeping
the final (possibly empty) segment. -/
def splitNlAux : List Char → List Char → List String
  | [], acc => [⟨acc.reverse⟩]
  | c :: rest, acc =>
    if c = '\n' then (⟨acc.reverse⟩ : String) :: splitNlAux rest []
    else splitNlAux rest (c :: acc)

/-- Modelled from the spec's words (claim C4): the claimed line count. -/
def specNewlineLoc (s : String) : ℕ :=
  (splitNlAux s.toList []).length

open Classical in
/-- Modelled from the spec's words (claim C1): "counts pairs with
similarity > 0.8 excluding the diagonal, divides by 2 (unordered pairs)". -/
noncomputable def specDuplication (lines : List String) : ℚ :=
  ((((Finset.range lines.length ×ˢ Finset.range lines.length).filter
    (fun p => p.1 ≠ p.2 ∧ 0.8 < cosineSim lines p.1 p.2)).card : ℚ)) / 2

/-- Modelled from the spec's words (claim C6): the number of list
comprehensions whose immediate structural predecessor in the depth-first
traversal of the syntax tree is a for-loop node. -/
def specGenExprCount (m : PyModule) : ℕ :=
  ((walkModule m).zip (walkModule m).tail).countP
    (fun p => isForNode p.1 && isListCompNode p.2)

/-! ### Claim C2: the quality-score formula -/

/-- C2 (confirmed): for every scorer input record carrying all fields, a
positive `total_loc` yields exactly
`0.3*max(0,100-avg_complexity*5) + 0.3*avg_maintainability +
0.4*(100-min(100,(total_issues/total_loc)*1000))`, and `total_loc = 0`
yields `0` (the `ZeroDivisionError` is swallowed, not raised). -/
theorem c2_quality_score_formula (ac am ti tl : ℚ) :
    (0 < tl → _calculate_quality_score ⟨ac, some am, some ti, tl⟩ =
      0.3 * max 0 (100 - ac * 5) + 0.3 * am +
        0.4 * (100 - min 100 (ti / tl * 1000))) ∧
    _calculate_quality_score ⟨ac, some am, some ti, 0⟩ = 0 := by
  constructor
  · intro h
    simp [_calculate_quality_score, ne_of_gt h]
  · simp [_calculate_quality_score]

/-- Witness for C2 at `avg_complexity = 2`, `avg_maintainability = 60`,
`total_issues = 5`, `total_loc = 100` (and the `total_loc = 0` case). -/
theorem c2_quality_score_formula_witness :
    _calculate_quality_score ⟨2, some 60, some 5, 100⟩ =
      0.3 * max 0 (100 - 2 * 5) + 0.3 * 60 +
        0.4 * (100 - min 100 (5 / 100 * 1000)) ∧
    _calculate_quality_score ⟨2, some 60, some 5, 0⟩ = 0 :=
  ⟨(c2_quality_score_formula 2 60 5 100).1 (by norm_num),
   (c2_quality_score_formula 2 60 5 0).2⟩

/-! ### Claim C7: parse failure yields exactly one issue -/

/-- C7 (confirmed): on a parse failure both structural analyzers return
exactly the one issue string reporting the failure (and, being total Lean
functions, never raise). -/
theorem c7_parse_failure_single_issue (msg : String) :
    _analyze_python (.error msg) = [pyErrorIssue msg] ∧
    (_analyze_python (.error msg)).length = 1 ∧
    _analyze_java (.error msg) = [javaErrorIssue msg] ∧
    (_analyze_java (.error msg)).length = 1 :=
  ⟨rfl, rfl, rfl, rfl⟩

/-! ### Claim C9: failing repository access -/

/-- C9 (confirmed): when the initial repository access or tree fetch
fails, `process_repository` returns the error-marker record with
`files_analyzed = 0`, `total_issues = 0` and no file-result entries. -/
theorem c9_repo_access_failure (name msg : String) :
    process_repository name (.error msg) = .errorResult name msg 0 0 := rfl

/-! ### Claim C10: threshold-based issues -/

/-- C10 (confirmed): `analyze_code_quality` prepends (in this order) a
high-complexity issue whenever the computed complexity exceeds the
language's `max_complexity` (10 for Python, 15 for Java) and a
high-duplication issue whenever the duplication metric exceeds 10; the
language-specific issues follow, and `total_issues` counts them all. -/
theorem c10_threshold_issues (fi : FileInput) (lang : Lang) :
    (analyze_code_quality fi lang).issues =
      (if (if lang = Lang.python then (10 : ℚ) else 15) <
          (calculate_metrics fi lang).complexity then
        [highComplexityIssue (calculate_metrics fi lang).complexity
          (if lang = Lang.python then (10 : ℚ) else 15)] else []) ++
      (if 10 < (calculate_metrics fi lang).duplication then
        [highDupIssue (calculate_metrics fi lang).duplication] else []) ++
      (if lang = Lang.python then _analyze_python fi.pyParse
       else _analyze_java fi.javaParse) ∧
    (analyze_code_quality fi lang).total_issues =
      ((analyze_code_quality fi lang).issues).length := by
  cases lang <;> simp [analyze_code_quality, _load_rules]

/-! ### Claim C4: the loc metric -/

/-- A Python file whose content is `"a\nb\n"`, with the outcomes CPython's
libraries produce on it: `cc_visit` finds no functions, `mi_visit`
succeeds, pylint runs, `ast.parse` yields two expression statements. -/
def c4Input : FileInput :=
  { code := "a\nb\n", ccResult := .ok [], miResult := .ok 100,
    pylintMessages := .ok 2, pmdFound := false, pmdOutcome := .ok none,
    pyParse := .ok ⟨[.exprStmt (.name ("a")), .exprStmt (.name ("b"))]⟩,
    javaParse := .error ("syntax error"), ai := .ok ("ok") }

/-- C4 counterexample: `"a\nb\n"` has `loc = 2` under
`len(code.splitlines())` — `str.splitlines` does not produce a trailing
empty line — while the claim asserts 3. -/
theorem c4_loc_counterexample :
    (calculate_metrics c4Input Lang.python).loc = 2 ∧
    specNewlineLoc ("a\nb\n") = 3 ∧ (2 : ℕ) ≠ 3 :=
  ⟨rfl, by decide, by decide⟩

/-- C4 amended: for every input and language, `loc` equals
`len(code.splitlines())`, the number of line-boundary-separated lines
WITHOUT an extra empty line for a trailing newline (so `"a\nb\n"` has
`loc = 2`); no later metric phase overwrites it, on any success or
failure path. -/
theorem c4_loc_amended (fi : FileInput) (lang : Lang) :
    (calculate_metrics fi lang).loc = (pySplitlines fi.code).length := by
  cases lang <;> (unfold calculate_metrics; repeat' split) <;> rfl

/-! ### Claim C5: missing type hints -/

/-- `ast.parse("def f(x: int):\n    pass")`: one function definition with
one annotated parameter and no return annotation. -/
def c5Module : PyModule :=
  ⟨[.functionDef ("f") [⟨"x", some (.name ("int"))⟩] [.passStmt] none]⟩

/-- C5 (code bug): on `def f(x: int): pass` the analyzer emits the
missing-type-hints issue even though a parameter is annotated, because
line 178 tests `isinstance(a, ast.AnnAssign)` on `ast.arg` objects — a
vacuously false test — instead of inspecting `a.annotation`; the claim
(and the code's evident intent) requires no issue here. -/
theorem c5_missing_hints_code_bug :
    _analyze_python (.ok c5Module) = [missingHintsIssue ("f")] := rfl

/-! ### Facts about the tf-idf similarity matrix -/

theorem docFreq_le_length (lines : List String) (t : String) :
    docFreq lines t ≤ lines.length :=
  List.length_filter_le _ _

theorem one_le_idf (lines : List String) (t : String) : 1 ≤ idf lines t := by
  have hpos : (0 : ℝ) < 1 + (docFreq lines t : ℝ) := by positivity
  have hle : (1 : ℝ) + (docFreq lines t : ℝ) ≤ 1 + (lines.length : ℝ) := by
    have h := docFreq_le_length lines t
    have : (docFreq lines t : ℝ) ≤ (lines.length : ℝ) := by exact_mod_cast h
    linarith
  have h1 : (1 : ℝ) ≤ (1 + (lines.length : ℝ)) / (1 + (docFreq lines t : ℝ)) :=
    (one_le_div hpos).2 hle
  have h2 := Real.log_nonneg h1
  unfold idf
  linarith

theorem tfidfWeight_nonneg (lines : List String) (i : ℕ) (t : String) :
    0 ≤ tfidfWeight lines i t :=
  mul_nonneg (Nat.cast_nonneg _) (le_trans zero_le_one (one_le_idf lines t))

theorem mem_vocab_of_mem_tokens {lines : List String} {l t : String}
    (hl : l ∈ lines) (ht : t ∈ tokenize l) : t ∈ vocabFinset lines := by
  simp only [vocabFinset, linesTokens, List.mem_toFinset, List.mem_flatMap]
  exact ⟨l, hl, ht⟩

theorem tfidfDot_self_pos (lines : List String) (i : ℕ) (hi : i < lines.length)
    (h : tokenize (lines.getD i "") ≠ []) : 0 < tfidfDot lines i i := by
  obtain ⟨t0, ht0⟩ := List.exists_mem_of_ne_nil _ h
  have hmem : t0 ∈ vocabFinset lines := by
    refine mem_vocab_of_mem_tokens ?_ ht0
    rw [List.getD_eq_getElem lines "" hi]
    exact List.getElem_mem hi
  refine Finset.sum_pos'
    (fun t _ => mul_nonneg (tfidfWeight_nonneg lines i t) (tfidfWeight_nonneg lines i t))
    ⟨t0, hmem, ?_⟩
  have hc : 0 < (tokenize (lines.getD i "")).count t0 := List.count_pos_iff.2 ht0
  have hw : 0 < tfidfWeight lines i t0 :=
    mul_pos (by exact_mod_cast hc)
      (lt_of_lt_of_le one_pos (one_le_idf lines t0))
  exact mul_pos hw hw

theorem cosineSim_self_eq_one (lines : List String) (i : ℕ)
    (hpos : 0 < tfidfDot lines i i) : cosineSim lines i i = 1 := by
  unfold cosineSim
  rw [if_neg (by push_neg; exact ⟨hpos.ne', hpos.ne'⟩)]
  rw [Real.mul_self_sqrt hpos.le, div_self hpos.ne']

theorem tfidfDot_congr (lines : List String) {i j i' j' : ℕ}
    (hi : lines.getD i "" = lines.getD i' "")
    (hj : lines.getD j "" = lines.getD j' "") :
    tfidfDot lines i j = tfidfDot lines i' j' := by
  unfold tfidfDot tfidfWeight
  rw [hi, hj]

/-- A file all of whose lines are equal, each containing at least one
token: every similarity is `1`, so all `n²` entries pass the threshold and
the reported duplication is `(n² - n)/2 = n(n-1)/2 = C(n,2)`. -/
theorem duplicationOf_allSame (code : String)
    (h1 : 1 < (pySplitlines code).length)
    (h2 : ∀ l ∈ pySplitlines code, ∀ l2 ∈ pySplitlines code, l = l2)
    (h3 : linesTokens (pySplitlines code) ≠ []) :
    duplicationOf code =
      ((pySplitlines code).length : ℚ) *
        (((pySplitlines code).length : ℚ) - 1) / 2 := by
  set lines := pySplitlines code with hlines
  have hrow : ∀ i j, i < lines.length → j < lines.length →
      lines.getD i "" = lines.getD j "" := by
    intro i j hi hj
    rw [List.getD_eq_getElem lines "" hi, List.getD_eq_getElem lines "" hj]
    exact h2 _ (List.getElem_mem hi) _ (List.getElem_mem hj)
  have h0 : 0 < lines.length := lt_trans one_pos h1
  have htok : tokenize (lines.getD 0 "") ≠ [] := by
    obtain ⟨t0, ht0⟩ := List.exists_mem_of_ne_nil _ h3
    simp only [linesTokens, List.mem_flatMap] at ht0
    obtain ⟨l, hl, htl⟩ := ht0
    obtain ⟨k, hk, hkl⟩ := List.mem_iff_getElem.1 hl
    intro hnil
    have : lines.getD 0 "" = l := by
      rw [hrow 0 k h0 hk, List.getD_eq_getElem lines "" hk, hkl]
    rw [this] at hnil
    rw [hnil] at htl
    exact List.not_mem_nil t0 htl
  have hpos : 0 < tfidfDot lines 0 0 := tfidfDot_self_pos lines 0 h0 htok
  have hdot : ∀ i j, i < lines.length → j < lines.length →
      tfidfDot lines i j = tfidfDot lines 0 0 := fun i j hi hj =>
    tfidfDot_congr lines (hrow i 0 hi h0) (hrow j 0 hj h0)
  have hsim : ∀ i j, i < lines.length → j < lines.length →
      cosineSim lines i j = 1 := by
    intro i j hi hj
    unfold cosineSim
    rw [hdot i i hi hi, hdot j j hj hj, hdot i j hi hj]
    rw [if_neg (by push_neg; exact ⟨hpos.ne', hpos.ne'⟩)]
    rw [Real.mul_self_sqrt hpos.le, div_self hpos.ne']
  have hcount : simCount lines = lines.length * lines.length := by
    unfold simCount
    rw [Finset.filter_true_of_mem]
    · simp
    · intro p hp
      rw [Finset.mem_product, Finset.mem_range, Finset.mem_range] at hp
      rw [hsim p.1 p.2 hp.1 hp.2]
      norm_num
  simp only [duplicationOf, ← hlines, if_pos h1, if_neg h3, hcount]
  push_cast
  ring

open Classical in
/-- When the file has at least two lines and every line has a token, the
implemented value `(np.sum(sim > 0.8) - n)/2` coincides with the spec's
"pairs above 0.8 excluding the diagonal, divided by 2": every diagonal
entry is `1` and is counted by `np.sum`, so subtracting `n` removes
exactly the diagonal. -/
theorem duplicationOf_eq_specDuplication (code : String)
    (h1 : 1 < (pySplitlines code).length)
    (h2 : ∀ i, i < (pySplitlines code).length →
      tokenize ((pySplitlines code).getD i "") ≠ []) :
    duplicationOf code = specDuplication (pySplitlines code) := by
  set lines := pySplitlines code with hlines
  have h0 : 0 < lines.length := lt_trans one_pos h1
  have h3 : linesTokens lines ≠ [] := by
    intro hnil
    obtain ⟨t0, ht0⟩ := List.exists_mem_of_ne_nil _ (h2 0 h0)
    have : t0 ∈ linesTokens lines := by
      simp only [linesTokens, List.mem_flatMap]
      refine ⟨lines.getD 0 "", ?_, ht0⟩
      rw [List.getD_eq_getElem lines "" h0]
      exact List.getElem_mem h0
    rw [hnil] at this
    exact List.not_mem_nil t0 this
  have hdiag : ∀ i, i < lines.length → cosineSim lines i i = 1 := fun i hi =>
    cosineSim_self_eq_one lines i (tfidfDot_self_pos lines i hi (h2 i hi))
  set S := (Finset.range lines.length ×ˢ Finset.range lines.length).filter
    (fun p : ℕ × ℕ => 0.8 < cosineSim lines p.1 p.2) with hS
  have hsplit : (S.filter (fun p : ℕ × ℕ => p.1 = p.2)).card +
      (S.filter (fun p : ℕ × ℕ => ¬p.1 = p.2)).card = S.card :=
    Finset.filter_card_add_filter_neg_card_eq_card _
  have hdiagset : S.filter (fun p : ℕ × ℕ => p.1 = p.2) =
      (Finset.range lines.length).image (fun i => (i, i)) := by
    ext ⟨a, b⟩
    simp only [hS, Finset.mem_filter, Finset.mem_product, Finset.mem_range,
      Finset.mem_image, Prod.mk.injEq]
    constructor
    · rintro ⟨⟨⟨ha, hb⟩, _⟩, hab⟩
      exact ⟨a, ha, rfl, hab⟩
    · rintro ⟨i, hi, hia, hib⟩
      subst hia
      subst hib
      refine ⟨⟨⟨hi, hi⟩, ?_⟩, rfl⟩
      rw [hdiag i hi]
      norm_num
  have hdiagcard : (S.filter (fun p : ℕ × ℕ => p.1 = p.2)).card = lines.length := by
    rw [hdiagset,
      Finset.card_image_of_injective _ (fun a b hab => congrArg Prod.fst hab),
      Finset.card_range]
  have hoff : S.filter (fun p : ℕ × ℕ => ¬p.1 = p.2) =
      (Finset.range lines.length ×ˢ Finset.range lines.length).filter
        (fun p : ℕ × ℕ => p.1 ≠ p.2 ∧ 0.8 < cosineSim lines p.1 p.2) := by
    rw [hS, Finset.filter_filter]
    apply Finset.filter_congr
    intro p _
    constructor
    · rintro ⟨ha, hb⟩; exact ⟨hb, ha⟩
    · rintro ⟨ha, hb⟩; exact ⟨hb, ha⟩
  have hcount : (simCount lines : ℚ) =
      (lines.length : ℚ) + ((S.filter (fun p : ℕ × ℕ => ¬p.1 = p.2)).card : ℚ) := by
    have : simCount lines = S.card := rfl
    rw [this, ← hsplit, hdiagcard]
    push_cast
    ring
  simp only [duplicationOf, ← hlines, if_pos h1, if_neg h3]
  rw [hcount, specDuplication, ← hoff]
  ring

/-! ### Claim C8: failure containment in the metric collector -/

/-- C8 amended: a failing external metric call never escapes
`calculate_metrics` (a total function), but because all metric phases share
one `try` block, the failing metric AND every later one — duplication
included — are left at their defaults; only the fields assigned before the
failure are kept. -/
theorem c8_metric_failure_amended (fi : FileInput) :
    (∀ e, fi.ccResult = .error e →
      calculate_metrics fi Lang.python = initMetrics fi.code) ∧
    (∀ e ccs, fi.ccResult = .ok ccs → fi.miResult = .error e →
      calculate_metrics fi Lang.python =
        { initMetrics fi.code with complexity := pyMaxCC ccs }) ∧
    (∀ e ccs mi, fi.ccResult = .ok ccs → fi.miResult = .ok mi →
      fi.pylintMessages = .error e →
      calculate_metrics fi Lang.python =
        { initMetrics fi.code with
            complexity := pyMaxCC ccs
            maintainability := mi }) := by
  refine ⟨?_, ?_, ?_⟩
  · intro e h
    simp [calculate_metrics, h]
  · intro e ccs h1 h2
    simp [calculate_metrics, h1, h2]
  · intro e ccs mi h1 h2 h3
    simp [calculate_metrics, h1, h2, h3]

/-- A Python file with two identical (syntactically invalid) lines:
`cc_visit` raises `SyntaxError`, aborting the shared `try` block before
the duplication computation is reached. -/
def c8Input : FileInput :=
  { code := "def f(:\ndef f(:",
    ccResult := .error ("invalid syntax (<unknown>, line 1)"),
    miResult := .error ("invalid syntax (<unknown>, line 1)"),
    pylintMessages := .ok 2, pmdFound := false, pmdOutcome := .ok none,
    pyParse := .error ("invalid syntax (<unknown>, line 1)"),
    javaParse := .error ("syntax error"), ai := .ok ("ok") }

/-- C8 counterexample: after the complexity computation fails on
`c8Input`, the metric collector reports duplication `0`, although the
duplication computation on that text yields `C(2,2) = 1` — the remaining
metric is NOT "still computed" as claimed. -/
theorem c8_metric_failure_counterexample :
    (calculate_metrics c8Input Lang.python).duplication = 0 ∧
    duplicationOf (c8Input.code) = 1 ∧ (0 : ℚ) ≠ 1 := by
  refine ⟨rfl, ?_, by norm_num⟩
  have hl : (pySplitlines (c8Input.code)).length = 2 := by decide
  have h := duplicationOf_allSame (c8Input.code)
    (by decide) (by decide) (by decide)
  rw [hl] at h
  rw [h]
  norm_num

/-- Witness for C8 at `c8Input`: the collector returns the default record
(only `loc` set) when the complexity phase fails. -/
theorem c8_metric_failure_amended_witness :
    calculate_metrics c8Input Lang.python = initMetrics c8Input.code :=
  (c8_metric_failure_amended c8Input).1
    ("invalid syntax (<unknown>, line 1)") rfl

/-! ### Claim C1: the duplication metric -/

/-- C1 amended: when the per-language phase succeeds, the reported
duplication is `duplicationOf code`, which is `0` for a file with at most
one line, `0` when no line contains a token of two or more word characters
(the vectorizer raises "empty vocabulary" and the handler leaves the
default — this is what happens on `"x = 1"` lines, whose words are all
single characters), equals `(np.sum(sim > .8) - n)/2` otherwise, which in
turn equals the spec's "off-diagonal pairs above 0.8, halved" whenever
every line has a token, and in particular equals `C(n,2)` for `n` equal
lines each having a token. -/
theorem c1_duplication_amended (fi : FileInput) :
    (∀ ccs mi k, fi.ccResult = .ok ccs → fi.miResult = .ok mi →
      fi.pylintMessages = .ok k →
      (calculate_metrics fi Lang.python).duplication = duplicationOf fi.code) ∧
    ((pySplitlines fi.code).length ≤ 1 → duplicationOf fi.code = 0) ∧
    (linesTokens (pySplitlines fi.code) = [] → duplicationOf fi.code = 0) ∧
    (1 < (pySplitlines fi.code).length →
      linesTokens (pySplitlines fi.code) ≠ [] →
      duplicationOf fi.code =
        ((simCount (pySplitlines fi.code) : ℚ) -
          ((pySplitlines fi.code).length : ℚ)) / 2) ∧
    (1 < (pySplitlines fi.code).length →
      (∀ i, i < (pySplitlines fi.code).length →
        tokenize ((pySplitlines fi.code).getD i "") ≠ []) →
      duplicationOf fi.code = specDuplication (pySplitlines fi.code)) ∧
    (1 < (pySplitlines fi.code).length →
      (∀ l ∈ pySplitlines fi.code, ∀ l2 ∈ pySplitlines fi.code, l = l2) →
      linesTokens (pySplitlines fi.code) ≠ [] →
      duplicationOf fi.code =
        ((pySplitlines fi.code).length : ℚ) *
          (((pySplitlines fi.code).length : ℚ) - 1) / 2) := by
  refine ⟨?_, ?_, ?_, ?_, ?_, ?_⟩
  · intro ccs mi k h1 h2 h3
    simp [calculate_metrics, h1, h2, h3]
  · intro h
    simp [duplicationOf, Nat.not_lt.2 h]
  · intro h
    simp [duplicationOf, h]
  · intro h1 h2
    simp [duplicationOf, h1, h2]
  · exact duplicationOf_eq_specDuplication fi.code
  · exact duplicationOf_allSame fi.code

/-- A Python file with two identical lines `"ab"`, each contributing the
token `ab`: CPython parses it, radon finds no functions, pylint runs. -/
def c1WitnessInput : FileInput :=
  { code := "ab\nab", ccResult := .ok [], miResult := .ok 100,
    pylintMessages := .ok 2, pmdFound := false, pmdOutcome := .ok none,
    pyParse := .ok ⟨[.exprStmt (.name ("ab")), .exprStmt (.name ("ab"))]⟩,
    javaParse := .error ("syntax error"), ai := .ok ("ok") }

/-- Witness for C1 at `c1WitnessInput`: two identical tokenizable lines
give duplication `C(2,2) = 1` through the full metric collector. -/
theorem c1_duplication_amended_witness :
    (calculate_metrics c1WitnessInput Lang.python).duplication = 1 := by
  have h := c1_duplication_amended c1WitnessInput
  have h1 := h.1 [] 100 2 rfl rfl rfl
  have h6 := h.2.2.2.2.2 (by decide) (by decide) (by decide)
  have hl : (pySplitlines (c1WitnessInput.code)).length = 2 := by decide
  rw [h1, h6, hl]
  norm_num

/-- The spec's end-to-end scenario C: a Python file of five identical
lines `"x = 1"`.  CPython parses it (five assignments, no functions), but
the vectorizer's token pattern `\b\w\w+\b` drops the single-character
words `x` and `1`, so `fit_transform` raises "empty vocabulary". -/
def c1BadInput : FileInput :=
  { code := "x = 1\nx = 1\nx = 1\nx = 1\nx = 1", ccResult := .ok [],
    miResult := .ok 100, pylintMessages := .ok 0, pmdFound := false,
    pmdOutcome := .ok none,
    pyParse := .ok ⟨List.replicate 5 (.assign [.name ("x")] (.const ("1")))⟩,
    javaParse := .error ("syntax error"), ai := .ok ("ok") }

/-- C1 counterexample: on five identical lines `"x = 1"` the reported
duplication is `0`, not the claimed `C(5,2) = 10`: every line's words are
single characters, the vocabulary is empty, and the `ValueError` handler
leaves the default. -/
theorem c1_duplication_counterexample :
    (calculate_metrics c1BadInput Lang.python).duplication = 0 ∧
    (0 : ℚ) ≠ 10 := by
  refine ⟨rfl, by norm_num⟩

/-! ### Claim C3: walker aggregate invariants -/

/-- All file paths reachable in a tree of entries (directories whose fetch
fails contribute nothing: the walk never reaches their children). -/
def pathsOf : List GhEntry → List String
  | [] => []
  | .dir (.ok cs) :: rest => pathsOf cs ++ pathsOf rest
  | .dir (.error _) :: rest => pathsOf rest
  | .file p _ :: rest => p :: pathsOf rest
termination_by l => sizeOf l
decreasing_by
  all_goals simp only [List.cons.sizeOf_spec, GhEntry.dir.sizeOf_spec,
    Except.ok.sizeOf_spec]
  all_goals omega

/-- The aggregate invariants claimed for a finished run: the file counter
matches the result map, the issue counter matches the per-file issue
sums, and the quality score is the scorer's value only when at least one
file was analyzed, staying at its zero default otherwise.  An error-marker
result carries zero counters. -/
def reportInv : RepoResult → Prop
  | .report _ fa ti frs ov =>
      fa = frs.length ∧
      ti = (frs.map (fun kv => kv.2.issues.length)).sum ∧
      (0 < fa → ov.quality_score =
        _calculate_quality_score ⟨ov.avg_complexity, some 0, none, ov.total_loc⟩) ∧
      (fa = 0 → ov.quality_score = 0)
  | .errorResult _ _ fa ti => fa = 0 ∧ ti = 0

theorem dictInsert_of_not_mem (k : String) (v : FileRecord) :
    ∀ l : List (String × FileRecord), k ∉ l.map Prod.fst →
      dictInsert k v l = l ++ [(k, v)]
  | [], _ => rfl
  | (k', v') :: t, h => by
    have hk : ¬k' = k := by
      intro he
      exact h (by simp [he])
    have ht : k ∉ t.map Prod.fst := by
      intro hm
      exact h (by simp [hm])
    simp only [dictInsert, if_neg hk, List.cons_append,
      dictInsert_of_not_mem k v t ht]

theorem pathsOf_append (l₁ l₂ : List GhEntry) :
    pathsOf (l₁ ++ l₂) = pathsOf l₁ ++ pathsOf l₂ := by
  induction l₁ using pathsOf.induct with
  | case1 => simp [pathsOf]
  | case2 cs rest ih1 ih2 => simp [pathsOf, ih2]
  | case3 msg rest ih => simp_all [pathsOf]
  | case4 p c rest ih => simp_all [pathsOf]

theorem walkLoop_inv (name : String) (acc : WalkAcc) (l : List GhEntry) :
    acc.files_analyzed = acc.file_results.length →
    acc.total_issues = (acc.file_results.map (fun kv => kv.2.issues.length)).sum →
    (∀ p ∈ acc.file_results.map Prod.fst, p ∉ pathsOf l) →
    (pathsOf l).Nodup →
    reportInv (walkLoop name acc l) := by
  induction name, acc, l using walkLoop.induct with
  | case1 name acc =>
    intro h1 h2 _ _
    simp only [walkLoop]
    unfold finalize
    by_cases hf : 0 < acc.files_analyzed
    · rw [if_pos hf]
      exact ⟨h1, h2, fun _ => rfl, fun h0 => by omega⟩
    · rw [if_neg hf]
      exact ⟨h1, h2, fun h0 => by omega, fun _ => rfl⟩
  | case2 name acc children rest ih =>
    intro h1 h2 h3 h4
    simp only [walkLoop]
    have hre : pathsOf (GhEntry.dir (Except.ok children) :: rest) =
        pathsOf children ++ pathsOf rest := by simp [pathsOf]
    rw [hre] at h3 h4
    have hperm : (pathsOf children ++ pathsOf rest).Perm
        (pathsOf (rest ++ children)) := by
      rw [pathsOf_append]
      exact List.perm_append_comm
    refine ih h1 h2 ?_ (h4.perm hperm)
    intro p hp hm
    exact h3 p hp (hperm.mem_iff.2 hm)
  | case3 name acc msg rest =>
    intro _ _ _ _
    simp only [walkLoop]
    exact ⟨rfl, rfl⟩
  | case4 name acc path rest h a ih =>
    intro h1 h2 h3 h4
    simp only [walkLoop]
    rw [if_pos h]
    have hpaths : pathsOf (GhEntry.file path (Except.error a) :: rest) =
        path :: pathsOf rest := by simp [pathsOf]
    rw [hpaths] at h3 h4
    refine ih h1 h2 ?_ h4.of_cons
    intro p hp hm
    exact h3 p hp (List.mem_cons_of_mem _ hm)
  | case5 name acc path rest h fi lang analysis record ih =>
    intro h1 h2 h3 h4
    simp only [walkLoop]
    rw [if_pos h]
    have hpaths : pathsOf (GhEntry.file path (Except.ok fi) :: rest) =
        path :: pathsOf rest := by simp [pathsOf]
    rw [hpaths] at h3 h4
    have hknot : path ∉ acc.file_results.map Prod.fst := fun hk =>
      h3 path hk (List.mem_cons_self _ _)
    refine ih ?_ ?_ ?_ h4.of_cons
    · show acc.files_analyzed + 1 = _
      rw [dictInsert_of_not_mem _ _ _ hknot, List.length_append, h1]
      rfl
    · show acc.total_issues + _ = _
      rw [dictInsert_of_not_mem _ _ _ hknot]
      simp only [List.map_append, List.sum_append, List.map_cons, List.map_nil,
        List.sum_cons, List.sum_nil, add_zero]
      rw [← h2]
      rfl
    · intro p hp
      rw [dictInsert_of_not_mem _ _ _ hknot] at hp
      simp only [List.map_append, List.mem_append, List.map_cons, List.map_nil,
        List.mem_singleton] at hp
      rcases hp with hp | hp
      · exact fun hm => h3 p hp (List.mem_cons_of_mem _ hm)
      · subst hp
        exact (List.nodup_cons.1 h4).1
  | case6 name acc path content rest h ih =>
    intro h1 h2 h3 h4
    have hpaths : pathsOf (GhEntry.file path content :: rest) =
        path :: pathsOf rest := by cases content <;> simp [pathsOf]
    rw [hpaths] at h3 h4
    have hstep : walkLoop name acc (GhEntry.file path content :: rest) =
        walkLoop name acc rest := by
      cases content <;> (simp only [walkLoop]; rw [if_neg h])
    rw [hstep]
    exact ih h1 h2 (fun p hp hm => h3 p hp (List.mem_cons_of_mem _ hm)) h4.of_cons

/-- C3 (confirmed, given pairwise-distinct file paths — GitHub trees key
entries by unique path): after any run that gets past repository access,
`files_analyzed` matches the entry count of `file_results`,
`total_issues` matches the per-file sums, and the quality score is the
scorer's value exactly when a file was analyzed, else the zero default. -/
theorem c3_walker_invariants (name : String) (entries : List GhEntry)
    (h : (pathsOf entries).Nodup) :
    reportInv (process_repository name (.ok entries)) := by
  show reportInv (walkLoop name ⟨0, 0, [], 0, 0⟩ entries)
  exact walkLoop_inv name ⟨0, 0, [], 0, 0⟩ entries rfl rfl (by simp) h

/-- A small Python file `"pass"` with its real oracle outcomes. -/
def passInput : FileInput :=
  { code := "pass", ccResult := .ok [], miResult := .ok 100,
    pylintMessages := .ok 0, pmdFound := false, pmdOutcome := .ok none,
    pyParse := .ok ⟨[.passStmt]⟩, javaParse := .error ("syntax error"),
    ai := .ok ("ok") }

/-- Witness for C3: a three-entry repository (one analyzable file, one
skipped extension, one directory whose only file fails to fetch). -/
theorem c3_walker_invariants_witness :
    reportInv (process_repository ("octocat/demo") (.ok
      [.file ("a.py") (.ok passInput), .file ("b.txt") (.ok passInput),
       .dir (.ok [.file ("c.py") (.error ("404"))])])) :=
  c3_walker_invariants ("octocat/demo") _ (by simp only [pathsOf]; decide)

/-! ### Claim C6: the generator-expression heuristic

The claim is about list comprehensions whose immediate predecessor in a
depth-first traversal is a for-loop node.  In preorder, the node visited
right after an `ast.For` is always its first child — the loop target —
and in any parseable program a loop target is an assignment target (a
name, or a tuple/list of targets), never a list comprehension.  So the
claimed set is empty for every well-formed module; and the code's check
compares against `next(ast.walk(tree))`, the module root, so it never
fires either.  We prove both counts are zero and equal. -/

mutual
/-- Whether an expression is a syntactically valid assignment (loop)
target: CPython's grammar restricts `for` targets to names, attribute and
subscript accesses, starred targets, and tuples/lists of targets; of the
expression forms distinguished here, names and tuples of targets. -/
def assignable : PyExpr → Bool
  | .name _ => true
  | .tupleE es => assignableList es
  | _ => false

def assignableList : List PyExpr → Bool
  | [] => true
  | e :: es => assignable e && assignableList es
end

/-- The well-formedness fact parseability gives us: every `for` statement
in the tree has an assignable loop target. -/
def nodeOk : PyNode → Bool
  | .stmt (.forStmt t _ _ _) => assignable t
  | _ => true

/-- `R a b`: node `b` may follow node `a` in preorder — if `a` is a `for`
loop, `b` is not a list comprehension. -/
def afterForNotLC (a b : PyNode) : Prop :=
  isForNode a = true → isListCompNode b = false

theorem walkExpr_head (e : PyExpr) :
    ∃ t, walkExpr e = .expr e :: t := by
  cases e <;> exact ⟨_, rfl⟩

theorem walkExpr_ne_nil (e : PyExpr) : walkExpr e ≠ [] := by
  obtain ⟨t, ht⟩ := walkExpr_head e
  simp [ht]

/-- "The last node of this traversal list is not a `for` statement": holds
for every list produced by the walk, because a `for` node is always
followed by its own (nonempty) subtree. -/
def lastOk (l : List PyNode) : Prop :=
  ∀ x ∈ l.getLast?, isForNode x = false

theorem lastOk_nil : lastOk [] := by
  intro x hx
  simp [List.getLast?] at hx

theorem lastOk_append {l₁ l₂ : List PyNode} (h1 : lastOk l₁) (h2 : lastOk l₂) :
    lastOk (l₁ ++ l₂) := by
  by_cases he : l₂ = []
  · subst he
    simpa using h1
  · intro x hx
    rw [List.getLast?_append_of_ne_nil _ he] at hx
    exact h2 x hx

theorem lastOk_cons {a : PyNode} {l : List PyNode} (ha : isForNode a = false)
    (hl : lastOk l) : lastOk (a :: l) := by
  cases l with
  | nil =>
    intro x hx
    simp only [List.getLast?_singleton, Option.mem_def, Option.some_inj] at hx
    subst hx
    exact ha
  | cons b t =>
    intro x hx
    rw [List.getLast?_cons_cons] at hx
    exact hl x hx

theorem lastOk_cons_of_ne_nil {a : PyNode} {l : List PyNode}
    (hl : lastOk l) (hne : l ≠ []) : lastOk (a :: l) := by
  intro x hx
  rw [show a :: l = [a] ++ l from rfl,
    List.getLast?_append_of_ne_nil _ hne] at hx
  exact hl x hx

mutual
theorem lastOk_walkExpr : (e : PyExpr) → lastOk (walkExpr e)
  | .name _ => lastOk_cons rfl lastOk_nil
  | .const _ => lastOk_cons rfl lastOk_nil
  | .call f as =>
    lastOk_cons rfl (lastOk_append (lastOk_walkExpr f) (lastOk_walkExprs as))
  | .listComp e gs =>
    lastOk_cons rfl (lastOk_append (lastOk_walkExpr e) (lastOk_walkComps gs))
  | .tupleE es => lastOk_cons rfl (lastOk_walkExprs es)

theorem lastOk_walkExprs : (es : List PyExpr) → lastOk (walkExprs es)
  | [] => lastOk_nil
  | e :: es => lastOk_append (lastOk_walkExpr e) (lastOk_walkExprs es)

theorem lastOk_walkComp : (c : PyComprehension) → lastOk (walkComp c)
  | .comp t i ifs =>
    lastOk_cons rfl (lastOk_append (lastOk_append (lastOk_walkExpr t)
      (lastOk_walkExpr i)) (lastOk_walkExprs ifs))

theorem lastOk_walkComps : (cs : List PyComprehension) → lastOk (walkComps cs)
  | [] => lastOk_nil
  | c :: cs => lastOk_append (lastOk_walkComp c) (lastOk_walkComps cs)
end

theorem lastOk_walkOptExpr : (o : Option PyExpr) → lastOk (walkOptExpr o)
  | none => lastOk_nil
  | some e => lastOk_walkExpr e

theorem lastOk_walkArg (a : PyArg) : lastOk (walkArg a) :=
  lastOk_cons rfl (lastOk_walkOptExpr a.annot)

theorem lastOk_flatMap_walkArg : (args : List PyArg) →
    lastOk (args.flatMap walkArg)
  | [] => lastOk_nil
  | a :: args => by
    rw [List.flatMap_cons]
    exact lastOk_append (lastOk_walkArg a) (lastOk_flatMap_walkArg args)

theorem lastOk_walkArgs (args : List PyArg) : lastOk (walkArgs args) :=
  lastOk_cons rfl (lastOk_flatMap_walkArg args)

mutual
theorem lastOk_walkStmt : (s : PyStmt) → lastOk (walkStmt s)
  | .functionDef n a b r =>
    lastOk_cons rfl (lastOk_append (lastOk_append (lastOk_walkArgs a)
      (lastOk_walkStmts b)) (lastOk_walkOptExpr r))
  | .forStmt t i b o =>
    lastOk_cons_of_ne_nil
      (lastOk_append (lastOk_append (lastOk_append (lastOk_walkExpr t)
        (lastOk_walkExpr i)) (lastOk_walkStmts b)) (lastOk_walkStmts o))
      (by
        intro hcon
        have h1 := List.append_eq_nil.1 hcon
        have h2 := List.append_eq_nil.1 h1.1
        have h3 := List.append_eq_nil.1 h2.1
        exact walkExpr_ne_nil t h3.1)
  | .assign ts v =>
    lastOk_cons rfl (lastOk_append (lastOk_walkExprs ts) (lastOk_walkExpr v))
  | .exprStmt v => lastOk_cons rfl (lastOk_walkExpr v)
  | .returnStmt v => lastOk_cons rfl (lastOk_walkOptExpr v)
  | .passStmt => lastOk_cons rfl lastOk_nil

theorem lastOk_walkStmts : (ss : List PyStmt) → lastOk (walkStmts ss)
  | [] => lastOk_nil
  | s :: ss => lastOk_append (lastOk_walkStmt s) (lastOk_walkStmts ss)
end

theorem chainA {l₁ l₂ : List PyNode} (h1 : List.Chain' afterForNotLC l₁)
    (h2 : List.Chain' afterForNotLC l₂) (hlast : lastOk l₁) :
    List.Chain' afterForNotLC (l₁ ++ l₂) :=
  h1.append h2 (fun x hx _y _hy hfor => by
    rw [hlast x hx] at hfor
    exact Bool.noConfusion hfor)

theorem chainC {a : PyNode} {l : List PyNode} (ha : isForNode a = false)
    (hl : List.Chain' afterForNotLC l) : List.Chain' afterForNotLC (a :: l) :=
  List.chain'_cons'.2 ⟨fun _y _hy hfor => by
    rw [ha] at hfor
    exact Bool.noConfusion hfor, hl⟩

theorem assignable_not_listComp {t : PyExpr} (h : assignable t = true) :
    isListCompNode (.expr t) = false := by
  cases t <;> simp_all [assignable, isListCompNode]

mutual
theorem chain_walkExpr : (e : PyExpr) → (∀ n ∈ walkExpr e, nodeOk n = true) →
    List.Chain' afterForNotLC (walkExpr e)
  | .name _, _ => List.chain'_singleton _
  | .const _, _ => List.chain'_singleton _
  | .call f as, h =>
    chainC rfl (chainA
      (chain_walkExpr f (fun n hn => h n (by
        simp only [walkExpr, List.mem_cons, List.mem_append]
        exact Or.inr (Or.inl hn))))
      (chain_walkExprs as (fun n hn => h n (by
        simp only [walkExpr, List.mem_cons, List.mem_append]
        exact Or.inr (Or.inr hn))))
      (lastOk_walkExpr f))
  | .listComp e gs, h =>
    chainC rfl (chainA
      (chain_walkExpr e (fun n hn => h n (by
        simp only [walkExpr, List.mem_cons, List.mem_append]
        exact Or.inr (Or.inl hn))))
      (chain_walkComps gs (fun n hn => h n (by
        simp only [walkExpr, List.mem_cons, List.mem_append]
        exact Or.inr (Or.inr hn))))
      (lastOk_walkExpr e))
  | .tupleE es, h =>
    chainC rfl (chain_walkExprs es (fun n hn => h n (by
      simp only [walkExpr, List.mem_cons]
      exact Or.inr hn)))

theorem chain_walkExprs : (es : List PyExpr) →
    (∀ n ∈ walkExprs es, nodeOk n = true) →
    List.Chain' afterForNotLC (walkExprs es)
  | [], _ => List.chain'_nil
  | e :: es, h =>
    chainA
      (chain_walkExpr e (fun n hn => h n (by
        simp only [walkExprs, List.mem_append]
        exact Or.inl hn)))
      (chain_walkExprs es (fun n hn => h n (by
        simp only [walkExprs, List.mem_append]
        exact Or.inr hn)))
      (lastOk_walkExpr e)

theorem chain_walkComp : (c : PyComprehension) →
    (∀ n ∈ walkComp c, nodeOk n = true) →
    List.Chain' afterForNotLC (walkComp c)
  | .comp t i ifs, h =>
    chainC rfl (chainA
      (chainA
        (chain_walkExpr t (fun n hn => h n (by
          simp only [walkComp, List.mem_cons, List.mem_append]
          exact Or.inr (Or.inl (Or.inl hn)))))
        (chain_walkExpr i (fun n hn => h n (by
          simp only [walkComp, List.mem_cons, List.mem_append]
          exact Or.inr (Or.inl (Or.inr hn)))))
        (lastOk_walkExpr t))
      (chain_walkExprs ifs (fun n hn => h n (by
        simp only [walkComp, List.mem_cons, List.mem_append]
        exact Or.inr (Or.inr hn))))
      (lastOk_append (lastOk_walkExpr t) (lastOk_walkExpr i)))

theorem chain_walkComps : (cs : List PyComprehension) →
    (∀ n ∈ walkComps cs, nodeOk n = true) →
    List.Chain' afterForNotLC (walkComps cs)
  | [], _ => List.chain'_nil
  | c :: cs, h =>
    chainA
      (chain_walkComp c (fun n hn => h n (by
        simp only [walkComps, List.mem_append]
        exact Or.inl hn)))
      (chain_walkComps cs (fun n hn => h n (by
        simp only [walkComps, List.mem_append]
        exact Or.inr hn)))
      (lastOk_walkComp c)
end

theorem chain_walkOptExpr : (o : Option PyExpr) →
    (∀ n ∈ walkOptExpr o, nodeOk n = true) →
    List.Chain' afterForNotLC (walkOptExpr o)
  | none, _ => List.chain'_nil
  | some e, h => chain_walkExpr e h

theorem chain_walkArg (a : PyArg) (h : ∀ n ∈ walkArg a, nodeOk n = true) :
    List.Chain' afterForNotLC (walkArg a) :=
  chainC rfl (chain_walkOptExpr a.annot (fun n hn => h n (by
    simp only [walkArg, List.mem_cons]
    exact Or.inr hn)))

theorem chain_flatMap_walkArg : (args : List PyArg) →
    (∀ n ∈ args.flatMap walkArg, nodeOk n = true) →
    List.Chain' afterForNotLC (args.flatMap walkArg)
  | [], _ => List.chain'_nil
  | a :: args, h => by
    rw [List.flatMap_cons]
    exact chainA
      (chain_walkArg a (fun n hn => h n (by
        rw [List.flatMap_cons]
        exact List.mem_append_left _ hn)))
      (chain_flatMap_walkArg args (fun n hn => h n (by
        rw [List.flatMap_cons]
        exact List.mem_append_right _ hn)))
      (lastOk_walkArg a)

theorem chain_walkArgs (args : List PyArg)
    (h : ∀ n ∈ walkArgs args, nodeOk n = true) :
    List.Chain' afterForNotLC (walkArgs args) :=
  chainC rfl (chain_flatMap_walkArg args (fun n hn => h n (by
    simp only [walkArgs, List.mem_cons]
    exact Or.inr hn)))

mutual
theorem chain_walkStmt : (s : PyStmt) → (∀ n ∈ walkStmt s, nodeOk n = true) →
    List.Chain' afterForNotLC (walkStmt s)
  | .functionDef nm a b r, h =>
    chainC rfl (chainA
      (chainA
        (chain_walkArgs a (fun n hn => h n (by
          simp only [walkStmt, List.mem_cons, List.mem_append]
          exact Or.inr (Or.inl (Or.inl hn)))))
        (chain_walkStmts b (fun n hn => h n (by
          simp only [walkStmt, List.mem_cons, List.mem_append]
          exact Or.inr (Or.inl (Or.inr hn)))))
        (lastOk_walkArgs a))
      (chain_walkOptExpr r (fun n hn => h n (by
        simp only [walkStmt, List.mem_cons, List.mem_append]
        exact Or.inr (Or.inr hn))))
      (lastOk_append (lastOk_walkArgs a) (lastOk_walkStmts b)))
  | .forStmt t i b o, h => by
    have hok : assignable t = true := by
      have hmem := h (.stmt (.forStmt t i b o)) (by
        simp only [walkStmt, List.mem_cons]
        exact Or.inl trivial)
      simpa [nodeOk] using hmem
    have htail : List.Chain' afterForNotLC
        (walkExpr t ++ walkExpr i ++ walkStmts b ++ walkStmts o) := by
      refine chainA (chainA (chainA ?_ ?_ (lastOk_walkExpr t)) ?_
        (lastOk_append (lastOk_walkExpr t) (lastOk_walkExpr i))) ?_
        (lastOk_append (lastOk_append (lastOk_walkExpr t) (lastOk_walkExpr i))
          (lastOk_walkStmts b))
      · exact chain_walkExpr t (fun n hn => h n (by
          simp only [walkStmt, List.mem_cons, List.mem_append]
          exact Or.inr (Or.inl (Or.inl (Or.inl hn)))))
      · exact chain_walkExpr i (fun n hn => h n (by
          simp only [walkStmt, List.mem_cons, List.mem_append]
          exact Or.inr (Or.inl (Or.inl (Or.inr hn)))))
      · exact chain_walkStmts b (fun n hn => h n (by
          simp only [walkStmt, List.mem_cons, List.mem_append]
          exact Or.inr (Or.inl (Or.inr hn))))
      · exact chain_walkStmts o (fun n hn => h n (by
          simp only [walkStmt, List.mem_cons, List.mem_append]
          exact Or.inr (Or.inr hn)))
    show List.Chain' afterForNotLC (.stmt (.forStmt t i b o) ::
      (walkExpr t ++ walkExpr i ++ walkStmts b ++ walkStmts o))
    refine List.chain'_cons'.2 ⟨?_, htail⟩
    intro y hy _hfor
    have hne : walkExpr t ≠ [] := walkExpr_ne_nil t
    have hne2 : walkExpr t ++ walkExpr i ≠ [] := fun hc =>
      hne (List.append_eq_nil.1 hc).1
    have hne3 : walkExpr t ++ walkExpr i ++ walkStmts b ≠ [] := fun hc =>
      hne2 (List.append_eq_nil.1 hc).1
    rw [List.head?_append_of_ne_nil _ hne3, List.head?_append_of_ne_nil _ hne2,
      List.head?_append_of_ne_nil _ hne] at hy
    obtain ⟨tl, htl⟩ := walkExpr_head t
    rw [htl] at hy
    simp only [List.head?_cons, Option.mem_def, Option.some_inj] at hy
    subst hy
    exact assignable_not_listComp hok
  | .assign ts v, h =>
    chainC rfl (chainA
      (chain_walkExprs ts (fun n hn => h n (by
        simp only [walkStmt, List.mem_cons, List.mem_append]
        exact Or.inr (Or.inl hn))))
      (chain_walkExpr v (fun n hn => h n (by
        simp only [walkStmt, List.mem_cons, List.mem_append]
        exact Or.inr (Or.inr hn))))
      (lastOk_walkExprs ts))
  | .exprStmt v, h =>
    chainC rfl (chain_walkExpr v (fun n hn => h n (by
      simp only [walkStmt, List.mem_cons]
      exact Or.inr hn)))
  | .returnStmt v, h =>
    chainC rfl (chain_walkOptExpr v (fun n hn => h n (by
      simp only [walkStmt, List.mem_cons]
      exact Or.inr hn)))
  | .passStmt, _ => List.chain'_singleton _

theorem chain_walkStmts : (ss : List PyStmt) →
    (∀ n ∈ walkStmts ss, nodeOk n = true) →
    List.Chain' afterForNotLC (walkStmts ss)
  | [], _ => List.chain'_nil
  | s :: ss, h =>
    chainA
      (chain_walkStmt s (fun n hn => h n (by
        simp only [walkStmts, List.mem_append]
        exact Or.inl hn)))
      (chain_walkStmts ss (fun n hn => h n (by
        simp only [walkStmts, List.mem_append]
        exact Or.inr hn)))
      (lastOk_walkStmt s)
end

theorem chain_walkModule (m : PyModule)
    (h : ∀ n ∈ walkModule m, nodeOk n = true) :
    List.Chain' afterForNotLC (walkModule m) :=
  chainC rfl (chain_walkStmts m.body (fun n hn => h n
    (List.mem_cons_of_mem _ hn)))

theorem countP_zip_tail_eq_zero : {l : List PyNode} →
    List.Chain' afterForNotLC l →
    (l.zip l.tail).countP (fun p => isForNode p.1 && isListCompNode p.2) = 0
  | [], _ => rfl
  | [_], _ => rfl
  | a :: b :: t, h => by
    rw [List.chain'_cons] at h
    have hz : ((a :: b :: t).zip (a :: b :: t).tail) =
        (a, b) :: ((b :: t).zip (b :: t).tail) := rfl
    rw [hz, List.countP_cons]
    have hab : (isForNode a && isListCompNode b) = false := by
      by_cases hfa : isForNode a = true
      · simp [hfa, h.1 hfa]
      · simp only [Bool.not_eq_true] at hfa
        simp [hfa]
    rw [countP_zip_tail_eq_zero h.2]
    simp [hab]

theorem specGenExprCount_eq_zero (m : PyModule)
    (h : (walkModule m).all nodeOk = true) : specGenExprCount m = 0 :=
  countP_zip_tail_eq_zero (chain_walkModule m
    (fun n hn => List.all_eq_true.1 h n hn))

theorem missingHints_ne_gen (nm : String) :
    missingHintsIssue nm ≠ genExprIssue := by
  intro h
  have h2 : (missingHintsIssue nm).data.head? = genExprIssue.data.head? := by
    rw [h]
  exact absurd (show some 'M' = some 'C' from h2) (by decide)

theorem unsafeUse_ne_gen (nm : String) :
    unsafeUseIssue nm ≠ genExprIssue := by
  intro h
  have h2 : (unsafeUseIssue nm).data.head? = genExprIssue.data.head? := by
    rw [h]
  exact absurd (show some 'P' = some 'C' from h2) (by decide)

/-- With the module root as `parent`, no node's issue list contains the
generator-expression suggestion: the root is never an `ast.For`, and the
other two rules emit differently-worded strings. -/
theorem pyNodeIssues_mod_no_gen (m : PyModule) (n : PyNode) :
    genExprIssue ∉ pyNodeIssues (.mod m) n := by
  intro hmem
  simp only [pyNodeIssues, List.mem_append] at hmem
  rcases hmem with (h1 | h2) | h3
  · cases n with
    | stmt s =>
      cases s with
      | functionDef nm args body ret =>
        have h1b : genExprIssue ∈
            (if (ret.isNone && !args.any argIsAnnAssign) = true
              then [missingHintsIssue nm] else []) := h1
        by_cases hc : (ret.isNone && !args.any argIsAnnAssign) = true
        · rw [if_pos hc] at h1b
          exact missingHints_ne_gen nm (List.mem_singleton.1 h1b).symm
        · rw [if_neg hc] at h1b
          exact absurd h1b (List.not_mem_nil _)
      | forStmt t i b o => exact absurd h1 (List.not_mem_nil _)
      | assign ts v => exact absurd h1 (List.not_mem_nil _)
      | exprStmt v => exact absurd h1 (List.not_mem_nil _)
      | returnStmt v => exact absurd h1 (List.not_mem_nil _)
      | passStmt => exact absurd h1 (List.not_mem_nil _)
    | mod m2 => exact absurd h1 (List.not_mem_nil _)
    | expr e => exact absurd h1 (List.not_mem_nil _)
    | argsNode args => exact absurd h1 (List.not_mem_nil _)
    | argNode a => exact absurd h1 (List.not_mem_nil _)
    | compNode c => exact absurd h1 (List.not_mem_nil _)
  · cases n with
    | expr e =>
      cases e with
      | call f cargs =>
        have h2b : genExprIssue ∈
            (if (funcId f = "eval" || funcId f = "exec" : Bool) = true
              then [unsafeUseIssue (funcId f)] else []) := h2
        by_cases hc : (funcId f = "eval" || funcId f = "exec" : Bool) = true
        · rw [if_pos hc] at h2b
          exact unsafeUse_ne_gen (funcId f) (List.mem_singleton.1 h2b).symm
        · rw [if_neg hc] at h2b
          exact absurd h2b (List.not_mem_nil _)
      | name i => exact absurd h2 (List.not_mem_nil _)
      | const l => exact absurd h2 (List.not_mem_nil _)
      | listComp elt gens => exact absurd h2 (List.not_mem_nil _)
      | tupleE elts => exact absurd h2 (List.not_mem_nil _)
    | mod m2 => exact absurd h2 (List.not_mem_nil _)
    | stmt s => exact absurd h2 (List.not_mem_nil _)
    | argsNode args => exact absurd h2 (List.not_mem_nil _)
    | argNode a => exact absurd h2 (List.not_mem_nil _)
    | compNode c => exact absurd h2 (List.not_mem_nil _)
  · cases n with
    | expr e =>
      cases e with
      | listComp elt gens => exact absurd h3 (List.not_mem_nil _)
      | name i => exact absurd h3 (List.not_mem_nil _)
      | const l => exact absurd h3 (List.not_mem_nil _)
      | call f cargs => exact absurd h3 (List.not_mem_nil _)
      | tupleE elts => exact absurd h3 (List.not_mem_nil _)
    | mod m2 => exact absurd h3 (List.not_mem_nil _)
    | stmt s => exact absurd h3 (List.not_mem_nil _)
    | argsNode args => exact absurd h3 (List.not_mem_nil _)
    | argNode a => exact absurd h3 (List.not_mem_nil _)
    | compNode c => exact absurd h3 (List.not_mem_nil _)

theorem analyze_python_count_gen_zero (m : PyModule) :
    (_analyze_python (.ok m)).count genExprIssue = 0 := by
  rw [List.count_eq_zero]
  intro hmem
  simp only [_analyze_python] at hmem
  have hhd : (walkModule m).headD (.mod m) = .mod m := rfl
  rw [hhd, List.mem_flatMap] at hmem
  obtain ⟨n, _, hs⟩ := hmem
  exact pyNodeIssues_mod_no_gen m n hs

/-- C6 (confirmed, vacuously): for every module whose `for` targets are
assignable expressions — which parseability guarantees — the number of
generator-expression issues the analyzer emits equals the number of list
comprehensions whose immediate preorder predecessor is a for-loop node,
and both are zero: a for node's preorder successor is its own loop
target, which cannot be a list comprehension, and the code's `parent` is
`next(ast.walk(tree))`, the module root, which is never an `ast.For`. -/
theorem c6_genexpr_heuristic (m : PyModule)
    (h : (walkModule m).all nodeOk = true) :
    (_analyze_python (.ok m)).count genExprIssue = specGenExprCount m ∧
    specGenExprCount m = 0 := by
  have hz := specGenExprCount_eq_zero m h
  exact ⟨by rw [analyze_python_count_gen_zero, hz], hz⟩

/-- `ast.parse("for i in xs:\n    [i for y in i]")`. -/
def c6Module : PyModule :=
  ⟨[.forStmt (.name ("i")) (.name ("xs"))
    [.exprStmt (.listComp (.name ("i")) [.comp (.name ("y")) (.name ("i")) []])]
    []]⟩

/-- Witness for C6 at a module with a list comprehension nested in a
`for` loop. -/
theorem c6_genexpr_heuristic_witness :
    (_analyze_python (.ok c6Module)).count genExprIssue =
      specGenExprCount c6Module ∧ specGenExprCount c6Module = 0 :=
  c6_genexpr_heuristic c6Module (by decide)

end AutoCodex
